import Mathlib

/-!
Verification of the request-lifecycle pipeline of a resilient Gemini API
client wrapper: prompt sanitization, token budgeting, bounded-retry
dispatch, error classification and usage accounting.

Text is modelled as a list of UTF-16 code units (`List Nat`), matching
JavaScript string semantics (`.length`, `.substring`, regex scanning all
operate on code units).  Error messages are modelled as `List Char`.
-/

deriving instance DecidableEq for Except

namespace AiMemo

/-- UTF-16 code units of a Lean string literal (all literals used here are
in the basic multilingual plane, where code units coincide with code
points). -/
def units (s : String) : List Nat := s.toList.map Char.toNat

/-- Characters of a Lean string literal, for modelling JS message strings. -/
def chs (s : String) : List Char := s.toList

/-- The JavaScript regex class backslash-s (whitespace), as matched by the
sanitizer's regexes and by String.prototype.trim. -/
def isWs (c : Nat) : Bool :=
  (9 ≤ c && c ≤ 13) || c == 32 || c == 160 || c == 5760 ||
  (8192 ≤ c && c ≤ 8202) || c == 8232 || c == 8233 || c == 8239 ||
  c == 8287 || c == 12288 || c == 65279

/-- JS `String.prototype.trim`: strip leading and trailing whitespace. -/
def trim (l : List Nat) : List Nat :=
  (((l.dropWhile isWs).reverse.dropWhile isWs)).reverse

/-- `.replace(/\r\n/g, '\n')`: left-to-right, non-overlapping, no rescan of
the replacement. -/
def replCRLF : List Nat → List Nat
  | [] => []
  | [c] => [c]
  | c :: d :: rest =>
    if c = 13 ∧ d = 10 then 10 :: replCRLF rest
    else c :: replCRLF (d :: rest)

/-- `.replace(/\t/g, '  ')`: each tab becomes two spaces. -/
def replTab : List Nat → List Nat
  | [] => []
  | c :: rest => if c = 9 then 32 :: 32 :: replTab rest else c :: replTab rest

/-- Does the list start with zero or more whitespace code units followed by
a newline?  Used to characterise which characters the `/\s+\n/g → '\n'`
pass deletes: scanning left to right with a greedy backtracking `\s+`, the
regex deletes exactly the whitespace characters that still have a newline
strictly later in their whitespace run, and keeps everything else. -/
def leadsToNl : List Nat → Bool
  | [] => false
  | c :: rest => if c = 10 then true else if isWs c then leadsToNl rest else false

/-- `.replace(/\s+\n/g, '\n')` (see `leadsToNl` for the characterisation of
the JS global-replace semantics this implements). -/
def replWsNl : List Nat → List Nat
  | [] => []
  | c :: rest =>
    if isWs c && leadsToNl rest then replWsNl rest
    else c :: replWsNl rest

/-- Drop a run of leading newlines. -/
def dropNl (l : List Nat) : List Nat := l.dropWhile (fun c => c == 10)

/-- `.replace(/\n{3,}/g, '\n\n')` with explicit fuel (the list length is
always enough fuel: every step consumes at least one code unit).  A maximal
run of three or more newlines is greedily matched whole and replaced by two
newlines; scanning continues after the run. -/
def replNl3Fuel : Nat → List Nat → List Nat
  | 0, l => l
  | _ + 1, [] => []
  | _ + 1, [c] => [c]
  | _ + 1, [c, d] => [c, d]
  | fuel + 1, c :: d :: e :: rest =>
    if c = 10 ∧ d = 10 ∧ e = 10 then 10 :: 10 :: replNl3Fuel fuel (dropNl rest)
    else c :: replNl3Fuel fuel (d :: e :: rest)

/-- `.replace(/\n{3,}/g, '\n\n')`. -/
def replNl3 (l : List Nat) : List Nat := replNl3Fuel l.length l

/-- The sanitizer pipeline before the final length truncation:
trim, then the four global replaces, in source order. -/
def preSanitize (l : List Nat) : List Nat :=
  replNl3 (replWsNl (replTab (replCRLF (trim l))))

/-- `sanitizeText` from lib/ai/utils.ts: empty guard, trim, the four
replaces, then `.substring(0, 100000)`. -/
def sanitizeText (l : List Nat) : List Nat :=
  if l = [] then [] else (preSanitize l).take 100000

/-- The first code unit, if any, is not whitespace. -/
def headOk : List Nat → Bool
  | [] => true
  | c :: _ => !isWs c

/-- The last code unit, if any, is not whitespace. -/
def endsOk : List Nat → Bool
  | [] => true
  | [c] => !isWs c
  | _ :: c :: rest => endsOk (c :: rest)

/-- No carriage-return immediately followed by a newline. -/
def noCRLF : List Nat → Bool
  | [] => true
  | [_] => true
  | c :: d :: rest => !(c == 13 && d == 10) && noCRLF (d :: rest)

/-- No whitespace code unit from which a newline is reachable through
whitespace (the characters `replWsNl` deletes). -/
def noWsNl : List Nat → Bool
  | [] => true
  | c :: rest => !(isWs c && leadsToNl rest) && noWsNl rest

/-- Does the list start with three newlines? -/
def startsNl3 : List Nat → Bool
  | c :: d :: e :: _ => c == 10 && d == 10 && e == 10
  | _ => false

/-- No three consecutive newlines anywhere. -/
def noNl3 : List Nat → Bool
  | [] => true
  | c :: rest => !startsNl3 (c :: rest) && noNl3 rest

/-- The Hangul syllable range matched by the regex `[가-힣]` (U+AC00 to
U+D7A3). -/
def isHangul (c : Nat) : Bool := 44032 ≤ c && c ≤ 55203

/-- `estimateTokens` from lib/ai/utils.ts: 0 for empty text, otherwise
Korean characters at 1 token per 2.5 characters and everything else at
1 token per 4 characters, summed, rounded up, floored at 1. -/
def estimateTokens (l : List Nat) : Nat :=
  if l = [] then 0
  else
    let koreanChars := l.countP isHangul
    let englishChars := l.length - koreanChars
    max 1 (Int.toNat ⌈(koreanChars : ℚ) / 2.5 + (englishChars : ℚ) / 4⌉)

/-- Result record of `validateAndAdjustTokens`. -/
structure TokenValidation where
  isValid : Bool
  adjustedText : Option (List Nat)
  estimatedTokens : Nat
deriving DecidableEq

/-- `validateAndAdjustTokens` from lib/ai/utils.ts: reserve 2000 tokens,
and when the estimate exceeds the remaining budget truncate the text
proportionally (`Math.floor`, modelled by `Int.fdiv`; JS `substring`
clamps a negative length to 0, modelled by `Int.toNat`), append the
truncation marker "..." and re-estimate. -/
def validateAndAdjustTokens (text : List Nat) (maxTokens : Int) : TokenValidation :=
  let est := estimateTokens text
  let maxInputTokens : Int := maxTokens - 2000
  if (est : Int) ≤ maxInputTokens then ⟨true, none, est⟩
  else
    let targetLength : Int := Int.fdiv ((text.length : Int) * maxInputTokens) (est : Int)
    let adjustedText := text.take targetLength.toNat ++ [46, 46, 46]
    ⟨false, some adjustedText, estimateTokens adjustedText⟩

/-! ## Error taxonomy and classification (lib/ai/errors.ts) -/

/-- The closed `GeminiErrorType` enum. -/
inductive GeminiErrorType where
  | API_KEY_INVALID
  | QUOTA_EXCEEDED
  | TIMEOUT
  | CONTENT_FILTERED
  | NETWORK_ERROR
  | RATE_LIMIT_EXCEEDED
  | TOKEN_LIMIT_EXCEEDED
  | INVALID_REQUEST
  | SERVICE_UNAVAILABLE
  | UNKNOWN
deriving DecidableEq, BEq

/-- A `GeminiError` instance: its type tag, message and per-instance
`retryable` flag. -/
structure GeminiErr where
  type : GeminiErrorType
  message : List Char
  retryable : Bool
deriving DecidableEq

/-- Constructing `new GeminiError(type, message)` with the constructor's
two optional arguments omitted: `retryable` defaults to `false` (this is
how every error in gemini-client.ts is built). -/
def mkGeminiErr (type : GeminiErrorType) (message : List Char) : GeminiErr :=
  ⟨type, message, false⟩

/-- `GeminiError.isRetryable`: the per-instance flag AND membership of the
type in the retry-eligible list. -/
def GeminiErr.isRetryable (g : GeminiErr) : Bool :=
  g.retryable &&
    [GeminiErrorType.TIMEOUT, GeminiErrorType.NETWORK_ERROR,
      GeminiErrorType.SERVICE_UNAVAILABLE].contains g.type

/-- A raw (non-`GeminiError`) JS error value as far as `inferErrorType`
inspects it: an optional string `message` field and optional numeric
`status` / `statusCode` fields. -/
structure JsError where
  message : Option (List Char)
  status : Option Int
  statusCode : Option Int
deriving DecidableEq

/-- ASCII lower-casing of one character (the behaviour of
`toLowerCase()` on the ASCII message texts the classifier matches on). -/
def lowerChar (c : Char) : Char :=
  if 65 ≤ c.toNat ∧ c.toNat ≤ 90 then Char.ofNat (c.toNat + 32) else c

/-- `message.toLowerCase()`. -/
def lowerStr (m : List Char) : List Char := m.map lowerChar

/-- Is `pat` a leading segment of `l`? -/
def leadSeg : List Char → List Char → Bool
  | [], _ => true
  | _ :: _, [] => false
  | p :: ps, c :: cs => p == c && leadSeg ps cs

/-- JS `message.includes(pat)`: `pat` occurs contiguously in `m`. -/
def hasSub (pat : List Char) : List Char → Bool
  | [] => pat.isEmpty
  | c :: cs => leadSeg pat (c :: cs) || hasSub pat cs

/-- The lower-cased message of an error value (empty when the `message`
field is absent or not a string). -/
def errMsg (e : JsError) : List Char := lowerStr (e.message.getD [])

/-- The numeric status of an error value: `status` if it is a number,
else `statusCode` if it is a number, else undefined. -/
def errStatus (e : JsError) : Option Int :=
  match e.status with
  | some s => some s
  | none => e.statusCode

/-- `inferErrorType` from lib/ai/errors.ts: the fixed classification
cascade over status codes and lower-cased message substrings.  `none`
models a falsy `error` argument. -/
def inferErrorType : Option JsError → GeminiErrorType
  | none => .UNKNOWN
  | some e =>
    let m := errMsg e
    let s := errStatus e
    if s == some 401 || hasSub (chs "unauthorized") m || hasSub (chs "api key") m then
      .API_KEY_INVALID
    else if s == some 429 || hasSub (chs "quota") m || hasSub (chs "rate limit") m then
      (if hasSub (chs "quota") m then .QUOTA_EXCEEDED else .RATE_LIMIT_EXCEEDED)
    else if s == some 400 || hasSub (chs "invalid") m then
      .INVALID_REQUEST
    else if (match s with | some v => 500 ≤ v | none => false) ||
        hasSub (chs "service unavailable") m || hasSub (chs "internal server") m then
      .SERVICE_UNAVAILABLE
    else if hasSub (chs "timeout") m || hasSub (chs "timed out") m then
      .TIMEOUT
    else if hasSub (chs "content") m && hasSub (chs "filter") m then
      .CONTENT_FILTERED
    else if hasSub (chs "network") m || hasSub (chs "connection") m then
      .NETWORK_ERROR
    else if hasSub (chs "token") m && hasSub (chs "limit") m then
      .TOKEN_LIMIT_EXCEEDED
    else .UNKNOWN

/-- A thrown value as seen by `isNonRetryableError`: either a
`GeminiError` instance or a raw JS value. -/
inductive ErrVal where
  | gem (g : GeminiErr)
  | js (e : Option JsError)
deriving DecidableEq

/-- `isNonRetryableError` from lib/ai/errors.ts: a `GeminiError` is
non-retryable iff `!error.isRetryable()`; any other value is classified
with `inferErrorType` and checked against the fixed non-retryable list. -/
def isNonRetryableError : ErrVal → Bool
  | .gem g => !g.isRetryable
  | .js e =>
    [GeminiErrorType.API_KEY_INVALID, GeminiErrorType.CONTENT_FILTERED,
      GeminiErrorType.TOKEN_LIMIT_EXCEEDED,
      GeminiErrorType.INVALID_REQUEST].contains (inferErrorType e)

/-! ## Bounded retry (withRetry in lib/ai/utils.ts)

The executor is modelled over an operation given as a map from the attempt
number (1-based) to that attempt's outcome.  Backoff delays and jitter are
wall-clock effects with no bearing on which attempts run, and are not
modelled.  The result is paired with the number of times the operation was
invoked.  `remaining` counts the loop iterations still allowed including
the current one (`maxRetries - attempt + 1` in source terms); the source
loop's `attempt >= maxRetries` early-break test is `remaining = 1`, and a
call with `maxRetries = 0` never runs the body and throws the
uninitialised `lastError` (modelled as `Except.error none`). -/

/-- One run of the `for` loop of `withRetry` starting at a given attempt. -/
def withRetryGo {α : Type} (op : Nat → Except ErrVal α) :
    Nat → Nat → Except (Option ErrVal) α × Nat
  | _, 0 => (.error none, 0)
  | attempt, remaining + 1 =>
    match op attempt with
    | .ok v => (.ok v, 1)
    | .error e =>
      if isNonRetryableError e then (.error (some e), 1)
      else if remaining = 0 then (.error (some e), 1)
      else
        let r := withRetryGo op (attempt + 1) remaining
        (r.1, r.2 + 1)

/-- `withRetry(operation, maxRetries, baseBackoffMs)`: run the loop from
attempt 1. -/
def withRetry {α : Type} (op : Nat → Except ErrVal α) (maxRetries : Nat) :
    Except (Option ErrVal) α × Nat :=
  withRetryGo op 1 maxRetries

/-! ## Gemini client (lib/ai/gemini-client.ts) -/

/-- Finish reasons of a generation response. -/
inductive FinishReason where
  | STOP
  | MAX_TOKENS
  | SAFETY
  | RECITATION
  | OTHER
deriving DecidableEq

/-- What `makeAPICall` returns on success. -/
structure APICallResp where
  text : List Nat
  finishReason : FinishReason
deriving DecidableEq

/-- Outcome of one transport-level `generateContent` call: it resolves
with a response whose `text` may be missing (`none`) or any string, or it
rejects, either with an `AbortError` (the timeout controller fired) or
with an arbitrary thrown value. -/
inductive TransportOutcome where
  | resolved (text : Option (List Nat))
  | abort
  | thrown (e : ErrVal)
deriving DecidableEq

/-- Decimal digits of a number, with explicit fuel (the number itself is
always enough fuel). -/
def digitsAux : Nat → Nat → List Char
  | 0, _ => []
  | fuel + 1, n =>
    if n < 10 then [Char.ofNat (48 + n)]
    else digitsAux fuel (n / 10) ++ [Char.ofNat (48 + n % 10)]

/-- Decimal rendering of a number. -/
def natChars (n : Nat) : List Char := digitsAux (n + 1) n

/-- Message of the timeout error `makeAPICall` raises when the deadline
controller aborts the call: the template interpolates `config.timeout`. -/
def timeoutMessage (ms : Nat) : List Char :=
  chs "Request timed out after " ++ natChars ms ++ chs "ms"

/-- Message of the `CONTENT_FILTERED` error raised on empty output. -/
def noTextMessage : List Char :=
  chs "No text generated - content may have been filtered"

/-- Message prefix of the wrapping error built in `generateText`'s catch
block (the interpolated cause is not modelled). -/
def apiFailMessage : List Char := chs "API call failed"

/-- `makeAPICall`: translate one transport outcome.  Empty or missing
text on a resolved call raises `CONTENT_FILTERED`; an abort raises
`TIMEOUT` (built with the constructor's default `retryable = false`);
any other rejection is re-thrown unchanged. -/
def makeAPICall (timeoutMs : Nat) (outcome : TransportOutcome) :
    Except ErrVal APICallResp :=
  match outcome with
  | .resolved none => .error (.gem (mkGeminiErr .CONTENT_FILTERED noTextMessage))
  | .resolved (some t) =>
    if t = [] then .error (.gem (mkGeminiErr .CONTENT_FILTERED noTextMessage))
    else .ok ⟨t, .STOP⟩
  | .abort => .error (.gem (mkGeminiErr .TIMEOUT (timeoutMessage timeoutMs)))
  | .thrown e => .error e

/-- Token accounting triple of a response. -/
structure TokenUsage where
  input : Nat
  output : Nat
  total : Nat
deriving DecidableEq

/-- A `GeminiResponse`. -/
structure GenResponse where
  text : List Nat
  tokens : TokenUsage
  finishReason : FinishReason
deriving DecidableEq

/-- `GeminiClient.generateText`: initialization guard, sanitize, token
budget adjustment, dispatch through `withRetry` (3 attempts), token
accounting on success, and GeminiError-preserving wrapping on failure.
The transport is a map from attempt number to that attempt's outcome;
`maxTokens` is the effective budget (`options.maxTokens || config.maxTokens`).
Usage logging is a side effect with no bearing on the result. -/
def generateTextModel (inited : Bool) (timeoutMs : Nat)
    (transport : Nat → TransportOutcome)
    (prompt : List Nat) (maxTokens : Int) : Except ErrVal GenResponse :=
  if inited = false then
    .error (.gem (mkGeminiErr .API_KEY_INVALID (chs "Client not initialized")))
  else
    let sanitizedPrompt := sanitizeText prompt
    let tokenValidation := validateAndAdjustTokens sanitizedPrompt maxTokens
    let finalPrompt := tokenValidation.adjustedText.getD sanitizedPrompt
    let inputTokens := estimateTokens finalPrompt
    match withRetry (fun attempt => makeAPICall timeoutMs (transport attempt)) 3 with
    | (.ok resp, _) =>
      let outputTokens := estimateTokens resp.text
      .ok ⟨resp.text, ⟨inputTokens, outputTokens, inputTokens + outputTokens⟩,
        resp.finishReason⟩
    | (.error (some (.gem g)), _) => .error (.gem g)
    | (.error (some (.js e)), _) =>
      .error (.gem ⟨inferErrorType e, apiFailMessage, false⟩)
    | (.error none, _) =>
      .error (.gem ⟨inferErrorType none, apiFailMessage, false⟩)

/-- The probe prompt of `healthCheck`. -/
def helloPrompt : List Nat := units "Hello"

/-- `GeminiClient.healthCheck`: issue the `'Hello'` probe with
`maxTokens 10`; on success report whether the text is non-empty; any
thrown error is caught and reported as `false`. -/
def healthCheckModel (inited : Bool) (timeoutMs : Nat)
    (transport : Nat → TransportOutcome) : Bool :=
  match generateTextModel inited timeoutMs transport helloPrompt 10 with
  | .ok result => decide (0 < result.text.length)
  | .error _ => false

/-- `checkGeminiHealth`: obtain the singleton client (whose construction
may itself throw) and delegate to `healthCheck`; any thrown error is
caught and reported as `false`. -/
def checkGeminiHealthModel (clientInit : Except ErrVal Unit) (inited : Bool)
    (timeoutMs : Nat) (transport : Nat → TransportOutcome) : Bool :=
  match clientInit with
  | .ok _ => healthCheckModel inited timeoutMs transport
  | .error _ => false

/-! ## Usage accounting (lib/ai/utils.ts) -/

/-- An `APIUsageLog` record (the timestamp plays no role in the
statistics and is modelled as a number). -/
structure APIUsageLog where
  timestamp : Nat
  model : List Char
  inputTokens : Nat
  outputTokens : Nat
  latencyMs : Nat
  success : Bool
  error : Option (List Char)
deriving DecidableEq

/-- The record returned by `calculateUsageStats`; rates and averages are
JS numbers, modelled as rationals. -/
structure UsageStats where
  totalRequests : Nat
  successRate : ℚ
  averageLatency : ℚ
  totalTokens : Nat
  averageTokensPerRequest : ℚ
deriving DecidableEq

/-- `calculateUsageStats` from lib/ai/utils.ts: explicit all-zero result
for an empty log list, otherwise filter/reduce aggregation. -/
def calculateUsageStats (logs : List APIUsageLog) : UsageStats :=
  if logs.length = 0 then ⟨0, 0, 0, 0, 0⟩
  else
    let successfulRequests := logs.filter (fun log => log.success)
    let totalTokens : Nat :=
      logs.foldl (fun sum log => sum + log.inputTokens + log.outputTokens) 0
    let totalLatency : Nat := logs.foldl (fun sum log => sum + log.latencyMs) 0
    ⟨logs.length,
      ((successfulRequests.length : ℚ) / (logs.length : ℚ)) * 100,
      (totalLatency : ℚ) / (logs.length : ℚ),
      totalTokens,
      (totalTokens : ℚ) / (logs.length : ℚ)⟩

/-! ## Concrete inputs used by the counterexamples -/

/-- The sanitizer example input from the spec: "a\r\nb\t\tc\n\n\n\nd". -/
def sanExampleIn : List Nat := units "a\r\nb\t\tc\n\n\n\nd"

/-- A 100002-code-unit input whose sanitized form is cut by the 100000
ceiling exactly at a space: 99999 letters 'a', a space, then "bb". -/
def longInput : List Nat := List.replicate 99999 97 ++ [32, 98, 98]

end AiMemo

namespace AiMemo

/-! ## Helper lemmas -/

/-- Closed form of the rounded-up mixed-rate token count as a natural
division. -/
theorem ceil_rate_eq (k e : ℕ) :
    ⌈(k : ℚ) / 2.5 + (e : ℚ) / 4⌉ = ((8 * k + 5 * e + 19) / 20 : ℕ) := by
  have hm : (k : ℚ) / 2.5 + (e : ℚ) / 4 = ((8 * k + 5 * e : ℕ) : ℚ) / 20 := by
    push_cast
    ring
  rw [hm]
  set m : ℕ := 8 * k + 5 * e with hmdef
  set n : ℕ := (m + 19) / 20 with hndef
  have hub : m ≤ 20 * n := by omega
  have hlb : 20 * n ≤ m + 19 := by omega
  rw [Int.ceil_eq_iff]
  constructor
  · have h : ((n : ℚ) - 1) * 20 < m := by
      have : (20 * n : ℚ) ≤ (m : ℚ) + 19 := by exact_mod_cast hlb
      linarith
    calc ((n : ℤ) : ℚ) - 1 = (n : ℚ) - 1 := by push_cast; ring
    _ < (m : ℚ) / 20 := (lt_div_iff₀ (by norm_num)).mpr h
  · have h : (m : ℚ) ≤ (n : ℚ) * 20 := by
      have : (m : ℚ) ≤ (20 * n : ℚ) := by exact_mod_cast hub
      linarith
    calc ((m : ℕ) : ℚ) / 20 ≤ (n : ℚ) := (div_le_iff₀ (by norm_num)).mpr h
    _ = ((n : ℤ) : ℚ) := by push_cast; ring

/-- `estimateTokens` as pure natural arithmetic. -/
theorem estimateTokens_eq (l : List Nat) :
    estimateTokens l =
      if l = [] then 0
      else max 1 ((8 * l.countP isHangul + 5 * (l.length - l.countP isHangul) + 19) / 20) := by
  unfold estimateTokens
  by_cases h : l = []
  · simp [h]
  · simp only [h, if_false]
    rw [ceil_rate_eq, Int.toNat_natCast]

/-- Characters counted by a predicate and by its negation partition the
length. -/
theorem countP_add_countP_not (l : List Nat) (p : Nat → Bool) :
    l.countP p + l.countP (fun c => !p c) = l.length := by
  induction l with
  | nil => simp
  | cons c cs ih =>
    simp only [List.countP_cons, List.length_cons]
    by_cases h : p c <;> simp [h] <;> omega

/-- The invocation count of the retry loop is bounded by the remaining
iteration budget. -/
theorem withRetryGo_count_le {α : Type} (op : Nat → Except ErrVal α) :
    ∀ r a, (withRetryGo op a r).2 ≤ r := by
  intro r
  induction r with
  | zero => intro a; simp [withRetryGo]
  | succ r ih =>
    intro a
    simp only [withRetryGo]
    cases hop : op a with
    | ok v => simp
    | error e =>
      by_cases h1 : isNonRetryableError e
      · simp [h1]
      · by_cases h2 : r = 0
        · simp [h1, h2]
        · have := ih (a + 1)
          simp only [h1, h2, Bool.false_eq_true, if_false]
          omega

/-- If every allowed attempt fails retryably, the loop runs all of them
and raises the last attempt's error. -/
theorem withRetryGo_exhaust {α : Type} (op : Nat → Except ErrVal α) :
    ∀ r a, 1 ≤ r →
      (∀ i, a ≤ i → i < a + r → ∃ e, op i = .error e ∧ isNonRetryableError e = false) →
      ∃ e, op (a + r - 1) = .error e ∧ withRetryGo op a r = (.error (some e), r) := by
  intro r
  induction r with
  | zero => omega
  | succ r ih =>
    intro a _ hall
    obtain ⟨e0, hop0, hret0⟩ := hall a (le_refl a) (by omega)
    by_cases hr : r = 0
    · subst hr
      refine ⟨e0, by simpa using hop0, ?_⟩
      simp [withRetryGo, hop0, hret0]
    · obtain ⟨e, hope, hgo⟩ := ih (a + 1) (by omega)
        (fun i hi1 hi2 => hall i (by omega) (by omega))
      refine ⟨e, ?_, ?_⟩
      · have : a + 1 + r - 1 = a + (r + 1) - 1 := by omega
        rwa [this] at hope
      · simp [withRetryGo, hop0, hret0, hr, hgo]

/-! ## Claim theorems -/

/-- C1: the TIMEOUT error that `makeAPICall` raises when the configured
deadline expires is built with the constructor's default
`retryable = false`, so `isNonRetryableError` judges it non-retryable and
`withRetry` re-raises it after exactly one invocation even with
`maxAttempts = 3` — the attempt counter being below `maxAttempts` does not
lead to another attempt, contradicting the claim that TIMEOUT errors are
retryable. -/
theorem timeout_error_not_retried :
    makeAPICall 10000 .abort
        = .error (.gem (mkGeminiErr .TIMEOUT (timeoutMessage 10000))) ∧
    isNonRetryableError (.gem (mkGeminiErr .TIMEOUT (timeoutMessage 10000))) = true ∧
    withRetry
        (fun _ => (.error (.gem (mkGeminiErr .TIMEOUT (timeoutMessage 10000))) :
          Except ErrVal APICallResp)) 3
      = (.error (some (.gem (mkGeminiErr .TIMEOUT (timeoutMessage 10000)))), 1) := by
  decide

/-- C2: evaluating `sanitizeText` at the example input
"a\r\nb\t\tc\n\n\n\nd" yields "a\nb    c\nd": the `/\s+\n/g` pass also
consumes newline runs (backslash-s matches the newline itself), so the
four consecutive newlines collapse to a single newline and the
`/\n{3,}/g` rule never fires; the output is not the claimed
"a\nb    c\n\nd". -/
theorem sanitizeText_example_eval :
    sanitizeText sanExampleIn = units "a\nb    c\nd" ∧
    sanitizeText sanExampleIn ≠ units "a\nb    c\n\nd" := by
  decide

/-- C3: at text "aaaaaaaa" (eight characters, estimate 2 tokens) and
`maxTokens = 2001` (allowed budget 1 token), `validateAndAdjustTokens`
truncates to "aaaa..." whose re-estimate is 2 tokens, strictly above the
claimed bound `maxTokens - 2000 = 1`. -/
theorem adjustTokens_budget_violation :
    (validateAndAdjustTokens (List.replicate 8 97) 2001).adjustedText
        = some [97, 97, 97, 97, 46, 46, 46] ∧
    ((estimateTokens [97, 97, 97, 97, 46, 46, 46] : Int) ≤ 2001 - 2000) = False := by
  have h1 : estimateTokens (List.replicate 8 97) = 2 := by
    rw [estimateTokens_eq]; decide
  have h2 : estimateTokens [97, 97, 97, 97, 46, 46, 46] = 2 := by
    rw [estimateTokens_eq]; decide
  constructor
  · simp only [validateAndAdjustTokens, h1]
    decide
  · rw [h2]
    simp

/-- C5: `withRetry` invokes the operation at most `maxAttempts` times;
exactly once when the first attempt succeeds (returning its value) or
fails non-retryably (raising that error immediately); and when every
attempt fails retryably it raises the last attempt's error after exactly
`maxAttempts` invocations. -/
theorem withRetry_bound {α : Type} (op : Nat → Except ErrVal α) (m : Nat) :
    (withRetry op m).2 ≤ m ∧
    (∀ v, 1 ≤ m → op 1 = .ok v → withRetry op m = (.ok v, 1)) ∧
    (∀ e, 1 ≤ m → op 1 = .error e → isNonRetryableError e = true →
      withRetry op m = (.error (some e), 1)) ∧
    (1 ≤ m →
      (∀ i, 1 ≤ i → i ≤ m → ∃ e, op i = .error e ∧ isNonRetryableError e = false) →
      ∃ e, op m = .error e ∧ withRetry op m = (.error (some e), m)) := by
  refine ⟨withRetryGo_count_le op m 1, ?_, ?_, ?_⟩
  · intro v hm hop
    obtain ⟨m', rfl⟩ : ∃ m', m = m' + 1 := ⟨m - 1, by omega⟩
    simp [withRetry, withRetryGo, hop]
  · intro e hm hop hret
    obtain ⟨m', rfl⟩ : ∃ m', m = m' + 1 := ⟨m - 1, by omega⟩
    simp [withRetry, withRetryGo, hop, hret]
  · intro hm hall
    obtain ⟨e, hope, hgo⟩ := withRetryGo_exhaust op m 1 hm
      (fun i hi1 hi2 => hall i hi1 (by omega))
    refine ⟨e, ?_, ?_⟩
    · have h1m : 1 + m - 1 = m := by omega
      rwa [h1m] at hope
    · simpa [withRetry] using hgo

/-- Witness for C5: a concrete operation succeeding on its first attempt
is invoked exactly once by `withRetry` with three allowed attempts. -/
theorem withRetry_bound_witness :
    (1 ≤ 3 ∧
      (fun i => if i = 1 then (Except.ok 7 : Except ErrVal Nat) else .error (.js none)) 1
        = .ok 7) ∧
    withRetry (fun i => if i = 1 then (Except.ok 7 : Except ErrVal Nat) else .error (.js none)) 3
      = (.ok 7, 1) :=
  ⟨⟨by norm_num, by decide⟩,
    (withRetry_bound (fun i => if i = 1 then (Except.ok 7 : Except ErrVal Nat)
      else .error (.js none)) 3).2.1 7 (by norm_num) (by decide)⟩

/-- C7: `estimateTokens` returns 0 on empty text; on non-empty text it is
the sum of Hangul-syllable characters at 1 token per 2.5 characters and
all other characters at 1 token per 4 characters, rounded up and floored
at 1; in particular the estimates of "Hello" and of the five-syllable
Korean greeting are both 2. -/
theorem estimateTokens_spec :
    estimateTokens [] = 0 ∧
    (∀ l : List Nat, l ≠ [] →
      estimateTokens l
        = max 1 (Int.toNat
            ⌈(l.countP isHangul : ℚ) / 2.5
              + ((l.countP fun c => !isHangul c) : ℚ) / 4⌉)) ∧
    estimateTokens (units "Hello") = 2 ∧
    estimateTokens (units "안녕하세요") = 2 := by
  refine ⟨by decide, ?_, by rw [estimateTokens_eq]; decide,
    by rw [estimateTokens_eq]; decide⟩
  intro l hl
  have hc : l.length - l.countP isHangul = l.countP fun c => !isHangul c := by
    have := countP_add_countP_not l isHangul
    omega
  simp only [estimateTokens, hl, if_false, hc]

/-- Witness for C7: the non-empty-text clause applied to "Hello". -/
theorem estimateTokens_spec_witness :
    units "Hello" ≠ [] ∧
    estimateTokens (units "Hello")
      = max 1 (Int.toNat
          ⌈((units "Hello").countP isHangul : ℚ) / 2.5
            + (((units "Hello").countP fun c => !isHangul c) : ℚ) / 4⌉) :=
  ⟨by decide, estimateTokens_spec.2.1 (units "Hello") (by decide)⟩

/-- Counterexample for C4: the error value with status 500 and message
"quota" matches the status rule for SERVICE_UNAVAILABLE (status 500 or
above) and the message rule for QUOTA_EXCEEDED, yet `inferErrorType`
returns the message-determined kind, not the status-determined one —
status-based rules do not uniformly precede message-based rules. -/
theorem inferErrorType_status_not_first :
    inferErrorType (some ⟨some (chs "quota"), some 500, none⟩) = .QUOTA_EXCEEDED ∧
    inferErrorType (some ⟨some (chs "quota"), some 500, none⟩) ≠ .SERVICE_UNAVAILABLE := by
  decide

/-- C4 (amended): classification applies a fixed rule list in which each
of the first four rules tests a status code together with certain message
substrings, so a message signal of an earlier rule overrides a later
rule's status match (a "quota" message is classified QUOTA_EXCEEDED for
any status other than 401, even 500); a status code decides on its own
when the message matches no rule substring (401 → API_KEY_INVALID,
429 → RATE_LIMIT_EXCEEDED, 400 → INVALID_REQUEST,
≥ 500 → SERVICE_UNAVAILABLE); and among message rules "quota" takes
priority over generic "rate limit" (both may match; quota wins inside
rule 2) and "timeout" over generic network errors. -/
theorem inferErrorType_priority :
    (∀ (s : Option Int) (m : List Char),
        hasSub (chs "quota") (lowerStr m) = true →
        hasSub (chs "unauthorized") (lowerStr m) = false →
        hasSub (chs "api key") (lowerStr m) = false →
        s ≠ some 401 →
        inferErrorType (some ⟨some m, s, none⟩) = .QUOTA_EXCEEDED) ∧
    (∀ m : List Char,
        hasSub (chs "timeout") (lowerStr m) = true →
        hasSub (chs "unauthorized") (lowerStr m) = false →
        hasSub (chs "api key") (lowerStr m) = false →
        hasSub (chs "quota") (lowerStr m) = false →
        hasSub (chs "rate limit") (lowerStr m) = false →
        hasSub (chs "invalid") (lowerStr m) = false →
        hasSub (chs "service unavailable") (lowerStr m) = false →
        hasSub (chs "internal server") (lowerStr m) = false →
        inferErrorType (some ⟨some m, none, none⟩) = .TIMEOUT) ∧
    (∀ (v : Int) (m : List Char),
        (∀ pat ∈ [chs "unauthorized", chs "api key", chs "quota", chs "rate limit",
            chs "invalid", chs "service unavailable", chs "internal server"],
          hasSub pat (lowerStr m) = false) →
        (v = 401 → inferErrorType (some ⟨some m, some v, none⟩) = .API_KEY_INVALID) ∧
        (v = 429 → inferErrorType (some ⟨some m, some v, none⟩) = .RATE_LIMIT_EXCEEDED) ∧
        (v = 400 → inferErrorType (some ⟨some m, some v, none⟩) = .INVALID_REQUEST) ∧
        (500 ≤ v → inferErrorType (some ⟨some m, some v, none⟩) = .SERVICE_UNAVAILABLE)) := by
  refine ⟨?_, ?_, ?_⟩
  · intro s m hq hu ha h401
    have hb : (s == some 401) = false := by simp [beq_eq_false_iff_ne, h401]
    cases s with
    | none => simp [inferErrorType, errMsg, errStatus, hq, hu, ha]
    | some v => simp [inferErrorType, errMsg, errStatus, hq, hu, ha, hb]
  · intro m ht hu ha hq hr hi hsu his
    simp [inferErrorType, errMsg, errStatus, ht, hu, ha, hq, hr, hi, hsu, his]
  · intro v m hpats
    have hu := hpats (chs "unauthorized") (by simp)
    have ha := hpats (chs "api key") (by simp)
    have hq := hpats (chs "quota") (by simp)
    have hr := hpats (chs "rate limit") (by simp)
    have hi := hpats (chs "invalid") (by simp)
    have hsu := hpats (chs "service unavailable") (by simp)
    have his := hpats (chs "internal server") (by simp)
    refine ⟨?_, ?_, ?_, ?_⟩
    · rintro rfl
      simp [inferErrorType, errMsg, errStatus, hu, ha]
    · rintro rfl
      simp [inferErrorType, errMsg, errStatus, hu, ha, hq, hr]
    · rintro rfl
      simp [inferErrorType, errMsg, errStatus, hu, ha, hq, hr, hi]
    · intro h500
      have h1 : ((some v : Option Int) == some 401) = false := by
        simp [beq_eq_false_iff_ne]; omega
      have h2 : ((some v : Option Int) == some 429) = false := by
        simp [beq_eq_false_iff_ne]; omega
      have h3 : ((some v : Option Int) == some 400) = false := by
        simp [beq_eq_false_iff_ne]; omega
      simp [inferErrorType, errMsg, errStatus, hu, ha, hq, hr, hi, hsu, his,
        h1, h2, h3, h500]

/-- Witness for C4: the amended rule-order theorem applied at concrete
inputs — a status-503 "quota exceeded" message classifies as
QUOTA_EXCEEDED, a "timeout connection" message classifies as TIMEOUT
(timeout beats the network rule), and a bare status-500 error classifies
as SERVICE_UNAVAILABLE. -/
theorem inferErrorType_priority_witness :
    inferErrorType (some ⟨some (chs "quota exceeded"), some 503, none⟩) = .QUOTA_EXCEEDED ∧
    inferErrorType (some ⟨some (chs "timeout connection"), none, none⟩) = .TIMEOUT ∧
    inferErrorType (some ⟨some [], some 500, none⟩) = .SERVICE_UNAVAILABLE :=
  ⟨inferErrorType_priority.1 (some 503) (chs "quota exceeded")
      (by decide) (by decide) (by decide) (by decide),
    inferErrorType_priority.2.1 (chs "timeout connection")
      (by decide) (by decide) (by decide) (by decide) (by decide) (by decide)
      (by decide) (by decide),
    (inferErrorType_priority.2.2 500 [] (by decide)).2.2.2 (by norm_num)⟩

/-- C9: `calculateUsageStats` on the empty log list returns the explicit
all-zero record (total requests, success rate, average latency, total
tokens and average tokens per request all 0) rather than dividing by
zero. -/
theorem calculateUsageStats_empty :
    calculateUsageStats [] = ⟨0, 0, 0, 0, 0⟩ := by
  decide

/-- C8: when the remote call resolves successfully but carries no text
(missing or empty output), `generateText` fails with a CONTENT_FILTERED
error — for every transport, prompt and budget, an empty first response
yields the CONTENT_FILTERED failure, never a success result (the error is
non-retryable, so no further attempt can turn it into a success). -/
theorem empty_output_content_filtered (timeoutMs : Nat)
    (transport : Nat → TransportOutcome) (prompt : List Nat) (maxTokens : Int)
    (h : transport 1 = .resolved none ∨ transport 1 = .resolved (some [])) :
    generateTextModel true timeoutMs transport prompt maxTokens
      = .error (.gem (mkGeminiErr .CONTENT_FILTERED noTextMessage)) := by
  rcases h with h | h <;>
    simp [generateTextModel, withRetry, withRetryGo, h, makeAPICall,
      isNonRetryableError, GeminiErr.isRetryable, mkGeminiErr]

/-- Witness for C8: a transport that always resolves with empty text
makes `generateText` fail with CONTENT_FILTERED. -/
theorem empty_output_content_filtered_witness :
    ((fun _ : Nat => TransportOutcome.resolved (some [])) 1 = .resolved none ∨
      (fun _ : Nat => TransportOutcome.resolved (some [])) 1 = .resolved (some [])) ∧
    generateTextModel true 10000 (fun _ => .resolved (some [])) helloPrompt 8192
      = .error (.gem (mkGeminiErr .CONTENT_FILTERED noTextMessage)) :=
  ⟨Or.inr rfl,
    empty_output_content_filtered 10000 (fun _ => .resolved (some []))
      helloPrompt 8192 (Or.inr rfl)⟩

/-- C10: `healthCheck` and the wrapper `checkGeminiHealth` always return
a boolean (exceptions from the probe are caught by their catch-all
branches), and return `true` exactly when the `generateText` probe
succeeded with non-empty text (for the wrapper, additionally only when
obtaining the client itself did not throw). -/
theorem healthCheck_reports_probe (inited : Bool) (timeoutMs : Nat)
    (transport : Nat → TransportOutcome) (clientInit : Except ErrVal Unit) :
    (healthCheckModel inited timeoutMs transport = true ↔
      ∃ r, generateTextModel inited timeoutMs transport helloPrompt 10 = .ok r ∧
        r.text ≠ []) ∧
    (checkGeminiHealthModel clientInit inited timeoutMs transport = true ↔
      (∃ u, clientInit = .ok u) ∧
      ∃ r, generateTextModel inited timeoutMs transport helloPrompt 10 = .ok r ∧
        r.text ≠ []) := by
  have h1 : healthCheckModel inited timeoutMs transport = true ↔
      ∃ r, generateTextModel inited timeoutMs transport helloPrompt 10 = .ok r ∧
        r.text ≠ [] := by
    unfold healthCheckModel
    cases hg : generateTextModel inited timeoutMs transport helloPrompt 10 with
    | ok r => simp [List.length_pos]
    | error e => simp
  refine ⟨h1, ?_⟩
  cases clientInit with
  | ok u => simpa [checkGeminiHealthModel] using h1
  | error e => simp [checkGeminiHealthModel]



theorem dropWhile_isWs_eq_self (l : List Nat) (h : headOk l = true) :
    l.dropWhile isWs = l := by
  cases l with
  | nil => rfl
  | cons c rest =>
    simp only [headOk, Bool.not_eq_true'] at h
    simp [List.dropWhile_cons, h]

theorem headOk_dropWhile (l : List Nat) : headOk (l.dropWhile isWs) = true := by
  induction l with
  | nil => rfl
  | cons c rest ih =>
    rw [List.dropWhile_cons]
    by_cases h : isWs c
    · simpa [h] using ih
    · simp [h, headOk]

theorem endsOk_cons (a c : Nat) (rest : List Nat) :
    endsOk (a :: c :: rest) = endsOk (c :: rest) := rfl

theorem endsOk_dropWhile (l : List Nat) (h : endsOk l = true) :
    endsOk (l.dropWhile isWs) = true := by
  induction l with
  | nil => rfl
  | cons c rest ih =>
    rw [List.dropWhile_cons]
    by_cases hc : isWs c
    · simp only [hc, if_true]
      cases rest with
      | nil => rfl
      | cons d t => exact ih (by rwa [endsOk_cons] at h)
    · simp [hc, h]

theorem headOk_append (l l2 : List Nat) (h : l ≠ []) :
    headOk (l ++ l2) = headOk l := by
  cases l with
  | nil => exact absurd rfl h
  | cons c rest => rfl

theorem endsOk_eq_headOk_reverse (l : List Nat) : endsOk l = headOk l.reverse := by
  induction l with
  | nil => rfl
  | cons c rest ih =>
    cases rest with
    | nil => rfl
    | cons d t =>
      have hne : (d :: t).reverse ≠ [] := by simp
      have h2 : (c :: d :: t).reverse = (d :: t).reverse ++ [c] := by simp
      rw [endsOk_cons, ih, h2, headOk_append _ _ hne]

theorem headOk_eq_endsOk_reverse (l : List Nat) : headOk l = endsOk l.reverse := by
  rw [endsOk_eq_headOk_reverse, List.reverse_reverse]

theorem trim_eq_self (l : List Nat) (h1 : headOk l = true) (h2 : endsOk l = true) :
    trim l = l := by
  unfold trim
  rw [dropWhile_isWs_eq_self l h1]
  rw [dropWhile_isWs_eq_self l.reverse (by rw [← endsOk_eq_headOk_reverse]; exact h2)]
  exact List.reverse_reverse l

theorem headOk_trim (l : List Nat) : headOk (trim l) = true := by
  unfold trim
  rw [headOk_eq_endsOk_reverse, List.reverse_reverse]
  refine endsOk_dropWhile _ ?_
  rw [endsOk_eq_headOk_reverse, List.reverse_reverse]
  exact headOk_dropWhile l

theorem endsOk_trim (l : List Nat) : endsOk (trim l) = true := by
  unfold trim
  rw [endsOk_eq_headOk_reverse, List.reverse_reverse]
  exact headOk_dropWhile _



theorem replCRLF_eq_self (l : List Nat) (h : noCRLF l = true) : replCRLF l = l := by
  induction l using replCRLF.induct with
  | case1 => rfl
  | case2 c => rfl
  | case3 c d rest hcd ih =>
    exact absurd h (by simp [noCRLF, hcd.1, hcd.2])
  | case4 c d rest hcd ih =>
    rw [replCRLF]
    rw [if_neg hcd, ih (by simp [noCRLF] at h; exact h.2)]



theorem replTab_eq_self (l : List Nat) (h : ∀ c ∈ l, c ≠ 9) : replTab l = l := by
  induction l with
  | nil => rfl
  | cons c rest ih =>
    rw [replTab, if_neg (h c (by simp)), ih (fun d hd => h d (by simp [hd]))]

theorem replWsNl_eq_self (l : List Nat) (h : noWsNl l = true) : replWsNl l = l := by
  induction l with
  | nil => rfl
  | cons c rest ih =>
    simp only [noWsNl, Bool.and_eq_true, Bool.not_eq_true'] at h
    rw [replWsNl, if_neg (by simp [h.1]), ih h.2]

theorem noNl3_tail (c : Nat) (rest : List Nat) (h : noNl3 (c :: rest) = true) :
    noNl3 rest = true := by
  simp only [noNl3, Bool.and_eq_true] at h
  exact h.2

theorem replNl3Fuel_eq_self (fuel : Nat) :
    ∀ l, noNl3 l = true → replNl3Fuel fuel l = l := by
  induction fuel with
  | zero => intro l _; rfl
  | succ fuel ih =>
    intro l h
    match l with
    | [] => rfl
    | [c] => rfl
    | [c, d] => rfl
    | c :: d :: e :: rest =>
      have hs : startsNl3 (c :: d :: e :: rest) = false := by
        simp only [noNl3, Bool.and_eq_true, Bool.not_eq_true'] at h
        exact h.1
      have hne : ¬(c = 10 ∧ d = 10 ∧ e = 10) := by
        intro ⟨h1, h2, h3⟩
        simp [startsNl3, h1, h2, h3] at hs
      rw [replNl3Fuel, if_neg hne,
        ih (d :: e :: rest) (noNl3_tail _ _ h)]

theorem replNl3_eq_self (l : List Nat) (h : noNl3 l = true) : replNl3 l = l :=
  replNl3Fuel_eq_self l.length l h

theorem leadsToNl_replWsNl (l : List Nat) : leadsToNl (replWsNl l) = leadsToNl l := by
  induction l with
  | nil => rfl
  | cons c rest ih =>
    rw [replWsNl]
    by_cases hd : isWs c && leadsToNl rest
    · rw [if_pos hd, ih]
      have hdl : leadsToNl rest = true := by
        rcases Bool.and_eq_true _ _ |>.mp hd with ⟨_, h2⟩
        exact h2
      by_cases hc : c = 10
      · simp [leadsToNl, hc, hdl]
      · have hw : isWs c = true := (Bool.and_eq_true _ _ |>.mp hd).1
        simp [leadsToNl, hc, hw, hdl]
    · rw [if_neg hd]
      by_cases hc : c = 10
      · simp [leadsToNl, hc]
      · by_cases hw : isWs c
        · have hdl : leadsToNl rest = false := by
            cases hrest : leadsToNl rest
            · rfl
            · exact absurd (by rw [hw, hrest]; rfl) hd
          simp [leadsToNl, hc, hw, hdl, ih]
        · simp [leadsToNl, hc, hw]

theorem noWsNl_replWsNl (l : List Nat) : noWsNl (replWsNl l) = true := by
  induction l with
  | nil => rfl
  | cons c rest ih =>
    rw [replWsNl]
    by_cases hd : isWs c && leadsToNl rest
    · rw [if_pos hd]; exact ih
    · rw [if_neg hd]
      have hfst : (isWs c && leadsToNl (replWsNl rest)) = false := by
        rw [leadsToNl_replWsNl]
        cases h : isWs c
        · rfl
        · cases hrest : leadsToNl rest
          · rfl
          · exact absurd (by rw [h, hrest]; rfl) hd
      simp [noWsNl, hfst, ih]



theorem noWsNl_imp_noCRLF (l : List Nat) (h : noWsNl l = true) : noCRLF l = true := by
  induction l with
  | nil => rfl
  | cons c rest ih =>
    simp only [noWsNl, Bool.and_eq_true, Bool.not_eq_true'] at h
    cases rest with
    | nil => rfl
    | cons d t =>
      have hrec := ih h.2
      simp only [noCRLF, Bool.and_eq_true, Bool.not_eq_true']
      refine ⟨?_, hrec⟩
      by_cases hc : c = 13
      · by_cases hdv : d = 10
        · exfalso
          have hws : isWs c = true := by subst hc; decide
          have hlead : leadsToNl (d :: t) = true := by simp [leadsToNl, hdv]
          rw [hws, hlead] at h
          exact absurd h.1 (by decide)
        · simp [hc, hdv]
      · simp [hc]

theorem noWsNl_imp_noNl3 (l : List Nat) (h : noWsNl l = true) : noNl3 l = true := by
  induction l with
  | nil => rfl
  | cons c rest ih =>
    simp only [noWsNl, Bool.and_eq_true, Bool.not_eq_true'] at h
    have hrec := ih h.2
    simp only [noNl3, Bool.and_eq_true, Bool.not_eq_true']
    refine ⟨?_, hrec⟩
    match rest with
    | [] => rfl
    | [d] => rfl
    | d :: e :: t =>
      by_cases hc : c = 10
      · by_cases hdv : d = 10
        · exfalso
          have hws : isWs c = true := by subst hc; decide
          have hlead : leadsToNl (d :: e :: t) = true := by simp [leadsToNl, hdv]
          rw [hws, hlead] at h
          exact absurd h.1 (by decide)
        · simp [startsNl3, hdv]
      · simp [startsNl3, hc]

theorem mem_replWsNl (l : List Nat) (c : Nat) (h : c ∈ replWsNl l) : c ∈ l := by
  induction l with
  | nil => simp [replWsNl] at h
  | cons d rest ih =>
    rw [replWsNl] at h
    by_cases hd : isWs d && leadsToNl rest
    · rw [if_pos hd] at h
      exact List.mem_cons_of_mem d (ih h)
    · rw [if_neg hd] at h
      rcases List.mem_cons.mp h with h | h
      · simp [h]
      · exact List.mem_cons_of_mem d (ih h)

theorem replTab_no_tab (l : List Nat) (c : Nat) (h : c ∈ replTab l) : c ≠ 9 := by
  induction l with
  | nil => simp [replTab] at h
  | cons d rest ih =>
    rw [replTab] at h
    by_cases hd : d = 9
    · rw [if_pos hd] at h
      rcases List.mem_cons.mp h with h | h
      · omega
      · rcases List.mem_cons.mp h with h | h
        · omega
        · exact ih h
    · rw [if_neg hd] at h
      rcases List.mem_cons.mp h with h | h
      · omega
      · exact ih h

theorem headOk_replCRLF (l : List Nat) (h : headOk l = true) :
    headOk (replCRLF l) = true := by
  match l with
  | [] => rfl
  | [c] => exact h
  | c :: d :: rest =>
    simp only [headOk, Bool.not_eq_true'] at h
    have hc : ¬(c = 13 ∧ d = 10) := by
      rintro ⟨rfl, _⟩
      simp [isWs] at h
    rw [replCRLF, if_neg hc]
    simpa [headOk] using h

theorem headOk_replTab (l : List Nat) (h : headOk l = true) :
    headOk (replTab l) = true := by
  match l with
  | [] => rfl
  | c :: rest =>
    simp only [headOk, Bool.not_eq_true'] at h
    have hc : c ≠ 9 := by
      rintro rfl
      simp [isWs] at h
    rw [replTab, if_neg hc]
    simpa [headOk] using h

theorem headOk_replWsNl (l : List Nat) (h : headOk l = true) :
    headOk (replWsNl l) = true := by
  match l with
  | [] => rfl
  | c :: rest =>
    simp only [headOk, Bool.not_eq_true'] at h
    rw [replWsNl, if_neg (by simp [h])]
    simpa [headOk] using h



theorem replCRLF_ne_nil (l : List Nat) (h : l ≠ []) : replCRLF l ≠ [] := by
  match l with
  | [] => exact absurd rfl h
  | [c] => simp [replCRLF]
  | c :: d :: rest =>
    rw [replCRLF]
    by_cases hcd : c = 13 ∧ d = 10
    · simp [hcd]
    · simp [hcd]

theorem replTab_ne_nil (l : List Nat) (h : l ≠ []) : replTab l ≠ [] := by
  match l with
  | [] => exact absurd rfl h
  | c :: rest =>
    rw [replTab]
    by_cases hc : c = 9 <;> simp [hc]

theorem replWsNl_ne_nil (l : List Nat) (h : l ≠ []) : replWsNl l ≠ [] := by
  induction l with
  | nil => exact absurd rfl h
  | cons c rest ih =>
    rw [replWsNl]
    by_cases hd : isWs c && leadsToNl rest
    · rw [if_pos hd]
      have hrest : rest ≠ [] := by
        rintro rfl
        have : leadsToNl ([] : List Nat) = false := rfl
        rw [this] at hd
        simp at hd
      exact ih hrest
    · simp [hd]

theorem endsOk_replCRLF (l : List Nat) (h : endsOk l = true) :
    endsOk (replCRLF l) = true := by
  induction l using replCRLF.induct with
  | case1 => rfl
  | case2 c => exact h
  | case3 c d rest hcd ih =>
    obtain ⟨rfl, rfl⟩ := hcd
    rw [replCRLF, if_pos ⟨rfl, rfl⟩]
    cases hr : rest with
    | nil =>
      subst hr
      exact absurd h (by decide)
    | cons e t =>
      subst hr
      have hrec := ih (by rwa [endsOk_cons, endsOk_cons] at h)
      have hne := replCRLF_ne_nil (e :: t) (by simp)
      cases hc : replCRLF (e :: t) with
      | nil => exact absurd hc hne
      | cons f u =>
        rw [hc] at hrec
        rw [endsOk_cons]
        exact hrec
  | case4 c d rest hcd ih =>
    rw [replCRLF, if_neg hcd]
    have hrec := ih (by rwa [endsOk_cons] at h)
    have hne := replCRLF_ne_nil (d :: rest) (by simp)
    cases hc : replCRLF (d :: rest) with
    | nil => exact absurd hc hne
    | cons f u =>
      rw [hc] at hrec
      rw [endsOk_cons]
      exact hrec

theorem endsOk_replTab (l : List Nat) (h : endsOk l = true) :
    endsOk (replTab l) = true := by
  induction l with
  | nil => rfl
  | cons c rest ih =>
    rw [replTab]
    cases hr : rest with
    | nil =>
      subst hr
      have hc : c ≠ 9 := by
        rintro rfl
        exact absurd h (by decide)
      rw [if_neg hc]
      exact h
    | cons e t =>
      subst hr
      have hrec := ih (by rwa [endsOk_cons] at h)
      have hne := replTab_ne_nil (e :: t) (by simp)
      by_cases hc : c = 9
      · rw [if_pos hc]
        cases hx : replTab (e :: t) with
        | nil => exact absurd hx hne
        | cons f u =>
          rw [hx] at hrec
          rw [endsOk_cons, endsOk_cons]
          exact hrec
      · rw [if_neg hc]
        cases hx : replTab (e :: t) with
        | nil => exact absurd hx hne
        | cons f u =>
          rw [hx] at hrec
          rw [endsOk_cons]
          exact hrec

theorem endsOk_replWsNl (l : List Nat) (h : endsOk l = true) :
    endsOk (replWsNl l) = true := by
  induction l with
  | nil => rfl
  | cons c rest ih =>
    rw [replWsNl]
    cases hr : rest with
    | nil =>
      subst hr
      have : leadsToNl ([] : List Nat) = false := rfl
      rw [this]
      simp only [Bool.and_false, Bool.false_eq_true, if_false]
      exact h
    | cons e t =>
      subst hr
      have hrec := ih (by rwa [endsOk_cons] at h)
      by_cases hd : isWs c && leadsToNl (e :: t)
      · rw [if_pos hd]
        exact hrec
      · rw [if_neg hd]
        have hne := replWsNl_ne_nil (e :: t) (by simp)
        cases hx : replWsNl (e :: t) with
        | nil => exact absurd hx hne
        | cons f u =>
          rw [hx] at hrec
          rw [endsOk_cons]
          exact hrec



theorem preSanitize_eq_replWsNl (x : List Nat) :
    preSanitize x = replWsNl (replTab (replCRLF (trim x))) := by
  unfold preSanitize
  exact replNl3_eq_self _ (noWsNl_imp_noNl3 _ (noWsNl_replWsNl _))

theorem sanitizeText_fixes (z : List Nat) (hhead : headOk z = true)
    (hends : endsOk z = true) (hws : noWsNl z = true)
    (htab : ∀ c ∈ z, c ≠ 9) (hlen : z.length ≤ 100000) :
    sanitizeText z = z := by
  by_cases hznil : z = []
  · rw [hznil]; rfl
  · rw [sanitizeText, if_neg hznil]
    unfold preSanitize
    rw [trim_eq_self z hhead hends, replCRLF_eq_self z (noWsNl_imp_noCRLF z hws),
      replTab_eq_self z htab, replWsNl_eq_self z hws,
      replNl3_eq_self z (noWsNl_imp_noNl3 z hws), List.take_of_length_le hlen]

/-- C6 (amended): `sanitizeText` is idempotent on every input whose
sanitized text already fits the 100,000-character ceiling before the final
truncation (in particular every input that is not truncated); when
truncation cuts the pipeline output, the cut can expose a trailing
whitespace character that the second application's trim removes, so
unrestricted idempotence fails (see the counterexample). -/
theorem sanitizeText_idempotent_bounded (x : List Nat)
    (h : (preSanitize x).length ≤ 100000) :
    sanitizeText (sanitizeText x) = sanitizeText x := by
  by_cases hx : x = []
  · subst hx; rfl
  · have hy : sanitizeText x = preSanitize x := by
      rw [sanitizeText, if_neg hx, List.take_of_length_le h]
    rw [hy, preSanitize_eq_replWsNl x]
    refine sanitizeText_fixes _ ?_ ?_ ?_ ?_ ?_
    · exact headOk_replWsNl _ (headOk_replTab _ (headOk_replCRLF _ (headOk_trim x)))
    · exact endsOk_replWsNl _ (endsOk_replTab _ (endsOk_replCRLF _ (endsOk_trim x)))
    · exact noWsNl_replWsNl _
    · exact fun c hc => replTab_no_tab _ c (mem_replWsNl _ c hc)
    · rw [← preSanitize_eq_replWsNl x]; exact h



theorem replCRLF_cons97 (l : List Nat) : replCRLF (97 :: l) = 97 :: replCRLF l := by
  cases l with
  | nil => rfl
  | cons d t => rw [replCRLF, if_neg (by omega)]

theorem replTab_cons97 (l : List Nat) : replTab (97 :: l) = 97 :: replTab l := by
  rw [replTab, if_neg (by omega)]

theorem replWsNl_cons97 (l : List Nat) : replWsNl (97 :: l) = 97 :: replWsNl l := by
  rw [replWsNl, if_neg (by simp [isWs])]

theorem startsNl3_cons97 (l : List Nat) : startsNl3 (97 :: l) = false := by
  match l with
  | [] => rfl
  | [d] => rfl
  | d :: e :: t => simp [startsNl3]

theorem noNl3_cons97 (l : List Nat) : noNl3 (97 :: l) = noNl3 l := by
  rw [noNl3, startsNl3_cons97]
  simp

theorem replCRLF_replicate (n : Nat) (l : List Nat) :
    replCRLF (List.replicate n 97 ++ l) = List.replicate n 97 ++ replCRLF l := by
  induction n with
  | zero => simp
  | succ n ih => rw [List.replicate_succ, List.cons_append, replCRLF_cons97, ih, List.cons_append]

theorem replTab_replicate (n : Nat) (l : List Nat) :
    replTab (List.replicate n 97 ++ l) = List.replicate n 97 ++ replTab l := by
  induction n with
  | zero => simp
  | succ n ih => rw [List.replicate_succ, List.cons_append, replTab_cons97, ih, List.cons_append]

theorem replWsNl_replicate (n : Nat) (l : List Nat) :
    replWsNl (List.replicate n 97 ++ l) = List.replicate n 97 ++ replWsNl l := by
  induction n with
  | zero => simp
  | succ n ih => rw [List.replicate_succ, List.cons_append, replWsNl_cons97, ih, List.cons_append]

theorem noNl3_replicate (n : Nat) (l : List Nat) :
    noNl3 (List.replicate n 97 ++ l) = noNl3 l := by
  induction n with
  | zero => simp
  | succ n ih => rw [List.replicate_succ, List.cons_append, noNl3_cons97, ih]

theorem headOk_replicate_append (n : Nat) (l : List Nat) (h : 0 < n) :
    headOk (List.replicate n 97 ++ l) = true := by
  cases n with
  | zero => omega
  | succ n => rw [List.replicate_succ, List.cons_append]; exact rfl

theorem trim_longInput : trim longInput = longInput := by
  refine trim_eq_self _ (headOk_replicate_append _ _ (by norm_num)) ?_
  rw [endsOk_eq_headOk_reverse]
  unfold longInput
  rw [List.reverse_append, List.reverse_replicate,
    headOk_append _ _ (by decide)]
  decide

theorem sanitize_longInput :
    sanitizeText longInput = List.replicate 99999 97 ++ [32] := by
  have hne : longInput ≠ [] := by
    intro h
    have hl := congrArg List.length h
    rw [longInput, List.length_append, List.length_replicate] at hl
    simp only [List.length_cons, List.length_nil] at hl
    omega
  rw [sanitizeText, if_neg hne]
  unfold preSanitize
  rw [trim_longInput]
  unfold longInput
  rw [replCRLF_replicate, show replCRLF [32, 98, 98] = [32, 98, 98] from rfl,
    replTab_replicate, show replTab [32, 98, 98] = [32, 98, 98] from rfl,
    replWsNl_replicate, show replWsNl [32, 98, 98] = [32, 98, 98] from rfl,
    replNl3_eq_self _ (by rw [noNl3_replicate]; decide),
    List.take_append_eq_append_take,
    List.take_of_length_le (by rw [List.length_replicate]; norm_num),
    List.length_replicate]
  norm_num

theorem sanitize_rep_space :
    sanitizeText (List.replicate 99999 97 ++ [32]) = List.replicate 99999 97 := by
  have hne : List.replicate 99999 97 ++ [32] ≠ [] := by
    intro h
    have hl := congrArg List.length h
    rw [List.length_append, List.length_replicate] at hl
    simp only [List.length_cons, List.length_nil] at hl
    omega
  have htrim : trim (List.replicate 99999 97 ++ [32]) = List.replicate 99999 97 := by
    unfold trim
    rw [dropWhile_isWs_eq_self _ (headOk_replicate_append _ _ (by norm_num)),
      List.reverse_append, List.reverse_replicate,
      show ([32] : List Nat).reverse = [32] from rfl, List.singleton_append,
      List.dropWhile_cons, if_pos (by decide),
      dropWhile_isWs_eq_self _ (by
        have hh := headOk_replicate_append 99999 [] (by norm_num)
        rwa [List.append_nil] at hh),
      List.reverse_replicate]
  rw [sanitizeText, if_neg hne]
  unfold preSanitize
  rw [htrim]
  have hrep : ∀ f : List Nat → List Nat,
      (∀ l, f (List.replicate 99999 97 ++ l) = List.replicate 99999 97 ++ f l) →
      f [] = [] → f (List.replicate 99999 97) = List.replicate 99999 97 := by
    intro f hf hnil
    have hx := hf []
    rw [List.append_nil, hnil, List.append_nil] at hx
    exact hx
  rw [hrep replCRLF (fun l => replCRLF_replicate _ l) rfl,
    hrep replTab (fun l => replTab_replicate _ l) rfl,
    hrep replWsNl (fun l => replWsNl_replicate _ l) rfl,
    replNl3_eq_self _ (by
      have hn := noNl3_replicate 99999 []
      rw [List.append_nil] at hn
      rw [hn]
      rfl),
    List.take_of_length_le (by rw [List.length_replicate]; norm_num)]

/-- Counterexample for C6: for the 100002-character input of 99999 'a's,
a space and "bb", sanitization truncates to 99999 'a's plus a trailing
space, and a second sanitization trims that space — `sanitizeText` is not
idempotent on inputs longer than the truncation ceiling. -/
theorem sanitizeText_not_idempotent_truncation :
    sanitizeText (sanitizeText longInput) ≠ sanitizeText longInput := by
  rw [sanitize_longInput, sanitize_rep_space]
  intro heq
  have hlen := congrArg List.length heq
  rw [List.length_replicate, List.length_append, List.length_replicate] at hlen
  simp only [List.length_cons, List.length_nil] at hlen
  omega


/-- Witness for C6: the bounded idempotence theorem applied to a small
concrete input. -/
theorem sanitizeText_idempotent_bounded_witness :
    (preSanitize (units "hello \n\n\n world")).length ≤ 100000 ∧
    sanitizeText (sanitizeText (units "hello \n\n\n world"))
      = sanitizeText (units "hello \n\n\n world") :=
  ⟨by decide, sanitizeText_idempotent_bounded (units "hello \n\n\n world") (by decide)⟩

end AiMemo
